import Mathlib

/-!
# Verification of the dicey expression / dice-roll evaluator

A shallow embedding of the dicey pipeline: the logos-generated lexer over
`TokenType` (src/token.rs), the single-token-lookahead recursive-descent
parser (src/parser.rs), the `Value`/`Kind` provenance model (src/value.rs)
and the tree-walking interpreter (src/interpreter.rs).

Embedding conventions:
* Rust strings are modelled as `List Char`; source spans are character
  positions (they coincide with the byte offsets of the code for the
  ASCII inputs appearing in concrete statements).
* `isize` is modelled as unbounded `Int`; overflow is out of scope (the
  design leaves the overflow policy undefined) and `/` uses `Int.div`,
  which truncates toward zero exactly as Rust `isize` division does.
* Rust panics (the interpreter's `unreachable!()` branches, division by
  zero inside `impl Div for Value`, and `rand`'s abort on an empty
  `gen_range` range) are modelled as an explicit `RPanic` error result;
  the code's own `InterpreterError` enum is uninhabited.
* The randomness source (`rand::Rng`) is modelled as a stream of
  integers together with a read position: each `gen_range(1..=f)` call
  hands out the next stream element.  Whether the elements lie in the
  requested range is a hypothesis on the stream, mirroring the contract
  of the injected `Rng` collaborator.
* The mutually recursive parser procedures take a fuel parameter and
  answer `none` when it runs out; all concrete statements use an
  explicit, amply sufficient fuel.
-/

set_option maxHeartbeats 1600000

namespace Dicey

/-- Convert a Lean string literal into the `List Char` used to model Rust strings. -/
def lit (s : String) : List Char := s.data

/-- `TokenType` from src/token.rs: the closed set of token kinds produced by
the logos lexer (whitespace is skipped, unrecognized input becomes `error`,
and `eof` is synthesized when the lexer is exhausted). -/
inductive TokenType where
  | leftParen
  | rightParen
  | minus
  | plus
  | slash
  | division
  | star
  | multiplication
  | number
  | float
  | dice
  | error
  | eof
  deriving DecidableEq, Repr

/-- The `Display` impl for `TokenType` in src/token.rs (used when formatting
parse-error messages). -/
def TokenType.display : TokenType → List Char
  | .leftParen => lit ("(")
  | .rightParen => lit (")")
  | .minus => lit ("−")
  | .plus => lit ("+")
  | .slash => lit ("/")
  | .division => lit ("÷")
  | .star => lit ("*")
  | .multiplication => lit ("×")
  | .number => lit ("number")
  | .float => lit ("float")
  | .dice => lit ("dice")
  | .error => lit ("error")
  | .eof => lit ("EoF")

/-- The whitespace class of the skip regex `[  \r\t\n]+` in src/token.rs
(the first character of the class is U+202F, the second a plain space). -/
def isWhitespaceChar (c : Char) : Bool :=
  c == ' ' || c == ' ' || c == '\r' || c == '\t' || c == '\n'

/-- Length of the leading whitespace run of a character list. -/
def whitespaceRun : List Char → Nat
  | [] => 0
  | c :: rest => if isWhitespaceChar c then whitespaceRun rest + 1 else 0

/-- Length of the leading decimal-digit run of a character list. -/
def digitRun : List Char → Nat
  | [] => 0
  | c :: rest => if c.isDigit then digitRun rest + 1 else 0

/-- One step of the logos-generated lexer for `TokenType`: starting at
position `pos` of `src`, skip whitespace, then recognize the next token.
Returns the token kind and its span `(start, stop)`.  At end of input the
kind is `eof` with the span `len.saturating_sub(1)..len` that
`Token::new_from_lexer` synthesizes; an unrecognized character yields an
`error` token covering that character. -/
def nextTokenFrom (src : List Char) (pos : Nat) : TokenType × Nat × Nat :=
  let p := pos + whitespaceRun (src.drop pos)
  match src.drop p with
  | [] => (.eof, src.length - 1, src.length)
  | c :: rest =>
    if c = '(' then (.leftParen, p, p + 1)
    else if c = ')' then (.rightParen, p, p + 1)
    else if c = '-' ∨ c = '−' then (.minus, p, p + 1)
    else if c = '+' then (.plus, p, p + 1)
    else if c = '/' then (.slash, p, p + 1)
    else if c = '÷' then (.division, p, p + 1)
    else if c = '*' then (.star, p, p + 1)
    else if c = 'x' ∨ c = 'X' ∨ c = '×' then (.multiplication, p, p + 1)
    else if c.isDigit then
      let d := 1 + digitRun rest
      match src.drop (p + d) with
      | '.' :: rest2 => (.float, p, p + d + 1 + digitRun rest2)
      | _ => (.number, p, p + d)
    else if c = 'd' ∨ c = 'D' then (.dice, p, p + 1)
    else (.error, p, p + 1)

/-- `Token` from src/token.rs: a reference to the whole source, a span and a
kind; `lexeme` is the spanned slice of the source. -/
structure Token where
  source : List Char
  start : Nat
  stop : Nat
  ty : TokenType
  deriving DecidableEq, Repr

/-- The `span` field of a token as an explicit pair. -/
def Token.span (t : Token) : Nat × Nat := (t.start, t.stop)

/-- `Token::lexeme`: the slice `source[span]`. -/
def Token.lexeme (t : Token) : List Char := (t.source.take t.stop).drop t.start

/-- `Token::new_from_lexer`: pull the next token from the lexer (or the
synthetic `eof` token once the input is exhausted) and return it together
with the new lexer position. -/
def fetchToken (src : List Char) (pos : Nat) : Token × Nat :=
  let (ty, start, stop) := nextTokenFrom src pos
  (⟨src, start, stop, ty⟩, stop)

/-- `ParserError` from src/error.rs: full source text, byte-offset span,
human message and short label. -/
structure ParserError where
  src : List Char
  span : Nat × Nat
  message : List Char
  label : List Char
  deriving DecidableEq, Repr

/-- The parser state of src/parser.rs: the lexer (source plus position) and
the single-token lookahead window `previous`/`current`. -/
structure ParserS where
  src : List Char
  pos : Nat
  previous : Token
  current : Token
  deriving Repr

/-- `Parser::new`: fetch the first token into both `previous` and `current`. -/
def parserNew (src : List Char) : ParserS :=
  let (t, p) := fetchToken src 0
  ⟨src, p, t, t⟩

/-- `Parser::is_at_end`. -/
def isAtEnd (s : ParserS) : Bool := s.current.ty == .eof

/-- `Parser::advance`: at end of input return `current` (the `eof` token)
and leave the state alone; otherwise shift `current` into `previous`,
fetch the next token, and return the new `previous`. -/
def advance (s : ParserS) : Token × ParserS :=
  if s.current.ty = .eof then (s.current, s)
  else
    let (t, p) := fetchToken s.src s.pos
    (s.current, { s with previous := s.current, current := t, pos := p })

/-- `Parser::expected_error`: an error at `previous`'s span whose message
names the expected and found kinds (an empty source is replaced by a
newline for the benefit of the diagnostic renderer). -/
def expectedError (s : ParserS) (expected found : TokenType) : ParserError :=
  { src := if s.src.isEmpty then lit ("\n") else s.src
    span := s.previous.span
    message := lit ("Expected `") ++ expected.display ++ lit ("`, found `")
      ++ found.display ++ lit ("`")
    label := lit ("Expected `") ++ expected.display ++ lit ("`") }

/-- `Parser::consume`: advance past the expected kind, else report an
`expected_error` built from `previous`'s kind. -/
def consume (expecting : TokenType) (s : ParserS) : Except ParserError (Token × ParserS) :=
  if s.current.ty = expecting then .ok (advance s)
  else .error (expectedError s expecting s.previous.ty)

/-- `Kind` from src/value.rs: the provenance tree of a `Value`. -/
inductive Kind where
  | direct (i : Int)
  | roll (subs : List Kind)
  | token (symbol : List Char)
  deriving Repr

/-- `Value` from src/value.rs: the current scalar plus its provenance. -/
structure Value where
  current : Int
  all : List Kind
  deriving Repr

/-- `Value::new`. -/
def Value.new (inner : Int) (all : List Kind) : Value := ⟨inner, all⟩

/-- `Value::direct`. -/
def Value.direct (inner : Int) : Value := ⟨inner, [Kind.direct inner]⟩

/-- `impl Add for Value`: add the scalars, concatenate the provenances with
a `+` token between them. -/
def Value.add (a b : Value) : Value :=
  ⟨a.current + b.current, a.all ++ Kind.token (lit ("+")) :: b.all⟩

/-- `impl Sub for Value`. -/
def Value.sub (a b : Value) : Value :=
  ⟨a.current - b.current, a.all ++ Kind.token (lit ("-")) :: b.all⟩

/-- `impl Mul for Value` (the interspersed display token is the letter `x`). -/
def Value.mul (a b : Value) : Value :=
  ⟨a.current * b.current, a.all ++ Kind.token (lit ("x")) :: b.all⟩

/-- `impl Div for Value` (Rust `isize` division truncates toward zero;
the zero-divisor panic is handled at the dispatch site). -/
def Value.div (a b : Value) : Value :=
  ⟨Int.tdiv a.current b.current, a.all ++ Kind.token (lit ("÷")) :: b.all⟩

/-- `impl Neg for Value`: the provenance collapses to `Direct(-current)`. -/
def Value.neg (a : Value) : Value := Value.direct (-a.current)

/-- The `Expr` AST.  Its variants and fields are taken verbatim from their
construction sites in src/parser.rs and their match arms in
src/interpreter.rs (the enum's own declaration lives in a file outside the
provided sources); cf. spec section 3. -/
inductive Expr where
  | literal (value : Value)
  | unary (operator : Token) (right : Expr)
  | binary (left : Expr) (operator : Token) (right : Expr)
  | grouping (expression : Expr)
  | roll (quantity : Expr) (dice : Token) (faces : Expr)
  deriving Repr

/-- Decimal value of a digit string. -/
def digitsToNat (l : List Char) : Nat :=
  l.foldl (fun acc c => acc * 10 + (c.toNat - 48)) 0

/-- `str::parse::<isize>` restricted to what a `Number` lexeme can be: one
or more decimal digits.  (Overflow of `isize` is not modelled, matching the
unbounded-integer convention above.) -/
def parseIsize (l : List Char) : Option Int :=
  if l ≠ [] ∧ l.all Char.isDigit then some (digitsToNat l) else none

/-- `Parser::value`: turn `previous`'s lexeme into a `Literal` expression
carrying `Value::direct` of the parsed integer.  The failure branch mirrors
the code's `Could not parse number` error; for lexemes of kind `Number` it
is never taken here because integers are unbounded in the model. -/
def valueRule (s : ParserS) : Except ParserError (Expr × ParserS) :=
  match parseIsize s.previous.lexeme with
  | some v => .ok (.literal (Value.direct v), s)
  | none => .error ⟨s.src, s.previous.span,
      lit ("Could not parse number"), lit ("invalid digit")⟩

mutual

/-- `Parser::expression`. -/
def expression (fuel : Nat) (s : ParserS) : Option (Except ParserError (Expr × ParserS)) :=
  match fuel with
  | 0 => none
  | f + 1 => term f s

/-- `Parser::term`: a factor followed by any number of `+`/`-` factors,
folded left-associatively. -/
def term (fuel : Nat) (s : ParserS) : Option (Except ParserError (Expr × ParserS)) :=
  match fuel with
  | 0 => none
  | f + 1 =>
    match factor f s with
    | none => none
    | some (.error e) => some (.error e)
    | some (.ok (e, s1)) => termLoop f e s1

/-- The `while is_followed_by([Minus, Plus])` loop of `Parser::term`. -/
def termLoop (fuel : Nat) (e : Expr) (s : ParserS) : Option (Except ParserError (Expr × ParserS)) :=
  match fuel with
  | 0 => none
  | f + 1 =>
    if s.current.ty = .minus ∨ s.current.ty = .plus then
      let (op, s1) := advance s
      match factor f s1 with
      | none => none
      | some (.error err) => some (.error err)
      | some (.ok (right, s2)) => termLoop f (.binary e op right) s2
    else some (.ok (e, s))

/-- `Parser::factor`: a roll followed by any number of `*`/`×`/`x`/`X`//
 /`÷` rolls, folded left-associatively. -/
def factor (fuel : Nat) (s : ParserS) : Option (Except ParserError (Expr × ParserS)) :=
  match fuel with
  | 0 => none
  | f + 1 =>
    match rollRule f s with
    | none => none
    | some (.error e) => some (.error e)
    | some (.ok (e, s1)) => factorLoop f e s1

/-- The `while is_followed_by([Star, Multiplication, Slash, Division])`
loop of `Parser::factor`. -/
def factorLoop (fuel : Nat) (e : Expr) (s : ParserS) : Option (Except ParserError (Expr × ParserS)) :=
  match fuel with
  | 0 => none
  | f + 1 =>
    if s.current.ty = .star ∨ s.current.ty = .multiplication
        ∨ s.current.ty = .slash ∨ s.current.ty = .division then
      let (op, s1) := advance s
      match rollRule f s1 with
      | none => none
      | some (.error err) => some (.error err)
      | some (.ok (right, s2)) => factorLoop f (.binary e op right) s2
    else some (.ok (e, s))

/-- `Parser::roll`: a unary followed by any number of `d` unaries, folded
left-associatively into `Roll` nodes. -/
def rollRule (fuel : Nat) (s : ParserS) : Option (Except ParserError (Expr × ParserS)) :=
  match fuel with
  | 0 => none
  | f + 1 =>
    match unaryRule f s with
    | none => none
    | some (.error e) => some (.error e)
    | some (.ok (e, s1)) => rollLoop f e s1

/-- The `while is_followed_by([Dice])` loop of `Parser::roll`. -/
def rollLoop (fuel : Nat) (e : Expr) (s : ParserS) : Option (Except ParserError (Expr × ParserS)) :=
  match fuel with
  | 0 => none
  | f + 1 =>
    if s.current.ty = .dice then
      let (d, s1) := advance s
      match unaryRule f s1 with
      | none => none
      | some (.error err) => some (.error err)
      | some (.ok (faces, s2)) => rollLoop f (.roll e d faces) s2
    else some (.ok (e, s))

/-- `Parser::unary`: `-` applied to a unary, or a primary. -/
def unaryRule (fuel : Nat) (s : ParserS) : Option (Except ParserError (Expr × ParserS)) :=
  match fuel with
  | 0 => none
  | f + 1 =>
    if s.current.ty = .minus then
      let (op, s1) := advance s
      match unaryRule f s1 with
      | none => none
      | some (.error err) => some (.error err)
      | some (.ok (right, s2)) => some (.ok (.unary op right, s2))
    else primary f s

/-- `Parser::primary`: a number literal or a parenthesized expression;
anything else reports `expected_error(Number, found)`. -/
def primary (fuel : Nat) (s : ParserS) : Option (Except ParserError (Expr × ParserS)) :=
  match fuel with
  | 0 => none
  | f + 1 =>
    let (tok, s1) := advance s
    match tok.ty with
    | .number => some (valueRule s1)
    | .leftParen =>
      match expression f s1 with
      | none => none
      | some (.error err) => some (.error err)
      | some (.ok (e, s2)) =>
        match consume .rightParen s2 with
        | .error err => some (.error err)
        | .ok (_, s3) => some (.ok (.grouping e, s3))
    | ty => some (.error (expectedError s1 .number ty))

end

/-- `Parser::parse`: parse a full expression and require the lookahead to
sit at `eof`, otherwise report the trailing-characters error (whose message
keeps at most 10 characters of the remainder). -/
def parse (fuel : Nat) (src : List Char) : Option (Except ParserError Expr) :=
  match expression fuel (parserNew src) with
  | none => none
  | some (.error e) => some (.error e)
  | some (.ok (e, s)) =>
    if s.current.ty = .eof then some (.ok e)
    else some (.error ⟨s.src, s.current.span,
        lit ("Unexpected characters `")
          ++ (s.current.lexeme ++ s.src.drop s.pos).take 10
          ++ lit ("` at the end of file."),
        lit ("Here")⟩)

/-- The injected randomness source: an infinite stream of integers and the
position of the next unread element.  Each `gen_range` call consumes one
element; whether the elements lie in the requested range is a hypothesis
on the stream. -/
structure RngState where
  stream : Nat → Int
  idx : Nat

/-- The Rust panics the interpreter can hit: an `unreachable!()` arm of the
operator dispatch, division by zero inside `impl Div for Value`, and
`rand`'s abort when `gen_range` is given an empty range. -/
inductive RPanic where
  | unreachableOp
  | divByZero
  | emptyRange
  deriving DecidableEq, Repr

/-- `rng.gen_range(lo..=hi)`: panics when the range is empty, otherwise
hands out the next stream element and advances the read position. -/
def genRange (lo hi : Int) (r : RngState) : Except RPanic (Int × RngState) :=
  if hi < lo then .error .emptyRange
  else .ok (r.stream r.idx, ⟨r.stream, r.idx + 1⟩)

/-- The `(0..quantity).map(|_| rng.gen_range(1..=faces)).collect()` loop of
the `Roll` arm: draw `n` samples in order, threading the source. -/
def rollSamples (n : Nat) (lo hi : Int) (r : RngState) : Except RPanic (List Int × RngState) :=
  match n with
  | 0 => .ok ([], r)
  | m + 1 =>
    match genRange lo hi r with
    | .error e => .error e
    | .ok (x, r1) =>
      match rollSamples m lo hi r1 with
      | .error e => .error e
      | .ok (xs, r2) => .ok (x :: xs, r2)

/-- `Iterator::intersperse` as used on the die results: a separator between
every two consecutive elements. -/
def intersperseKind (sep : Kind) : List Kind → List Kind
  | [] => []
  | [k] => [k]
  | k :: k2 :: rest => k :: sep :: intersperseKind sep (k2 :: rest)

/-- The operator dispatch of the `Binary` arm of `Expr::interpret`: it
matches on the operator token's *lexeme* (`"+"`, `"-"`, `"*" | "("`,
`"/"`); any other spelling falls into the `unreachable!()` arm, and a zero
divisor panics inside the division itself. -/
def binaryDispatch (lex : List Char) (a b : Value) : Except RPanic Value :=
  if lex = lit ("+") then .ok (a.add b)
  else if lex = lit ("-") then .ok (a.sub b)
  else if lex = lit ("*") ∨ lex = lit ("(") then .ok (a.mul b)
  else if lex = lit ("/") then
    if b.current = 0 then .error .divByZero else .ok (a.div b)
  else .error .unreachableOp

/-- `Expr::interpret` from src/interpreter.rs: the post-order tree walk.
`Unary` matches its operator's lexeme against `"-"` (anything else is the
`unreachable!()` arm), `Binary` dispatches through `binaryDispatch` after
evaluating left then right, `Grouping` is transparent, `Literal` clones,
and `Roll` evaluates quantity then faces, draws `quantity.current` samples
from `1..=faces.current`, and records `Direct(total)` followed by the
interspersed `Roll` node. -/
def interpret : Expr → RngState → Except RPanic (Value × RngState)
  | .unary op right, r =>
    match interpret right r with
    | .error e => .error e
    | .ok (v, r1) =>
      if op.lexeme = lit ("-") then .ok (v.neg, r1)
      else .error .unreachableOp
  | .binary left op right, r =>
    match interpret left r with
    | .error e => .error e
    | .ok (vl, r1) =>
      match interpret right r1 with
      | .error e => .error e
      | .ok (vr, r2) =>
        match binaryDispatch op.lexeme vl vr with
        | .error e => .error e
        | .ok v => .ok (v, r2)
  | .grouping e, r => interpret e r
  | .literal v, r => .ok (v, r)
  | .roll q _d faces, r =>
    match interpret q r with
    | .error e => .error e
    | .ok (vq, r1) =>
      match interpret faces r1 with
      | .error e => .error e
      | .ok (vf, r2) =>
        match rollSamples vq.current.toNat 1 vf.current r2 with
        | .error e => .error e
        | .ok (results, r3) =>
          let value := results.sum
          let node := Kind.roll (intersperseKind (Kind.token (lit ("+")))
            (results.map Kind.direct))
          .ok (Value.new value [Kind.direct value, node], r3)

/-- The error side of the full pipeline (`error.rs::Error` restricted to
what the pipeline can produce): a structured parse error, or a runtime
panic (the code's `InterpreterError` is uninhabited, so evaluation never
returns a structured error). -/
inductive RunError where
  | parser (e : ParserError)
  | runtimePanic (p : RPanic)
  deriving Repr

/-- `Interpreter::run_with_rng`: parse, then interpret with the supplied
randomness source. -/
def run (fuel : Nat) (src : List Char) (r : RngState) :
    Option (Except RunError (Value × RngState)) :=
  match parse fuel src with
  | none => none
  | some (.error e) => some (.error (.parser e))
  | some (.ok expr) =>
    match interpret expr r with
    | .error p => some (.error (.runtimePanic p))
    | .ok vr => some (.ok vr)

/-- A fixed-sequence randomness double: every sample is 1. -/
def rng0 : RngState := ⟨fun _ => 1, 0⟩

/-- A fixed-sequence randomness double: every sample is 3 (in range for d6). -/
def rng3 : RngState := ⟨fun _ => 3, 0⟩

/-- A fixed-sequence randomness double with distinct successive samples. -/
def rngk : RngState := ⟨fun k => (k : Int) + 2, 0⟩

/-- The constant-1 stream read from position 5: it supplies the same values
in the same order as `rng0`. -/
def rngShift : RngState := ⟨fun _ => 1, 5⟩

/-- The provenance list that evaluation produces both for `2 + 3 * 2` and
for `(2 + 3) * 2`: grouping inserts nothing into the trace. -/
def provMix : List Kind :=
  [Kind.direct 2, Kind.token (lit ("+")), Kind.direct 3,
   Kind.token (lit ("x")), Kind.direct 2]

/-- Whether an expression tree contains no `Roll` node (purely arithmetic). -/
def diceFree : Expr → Bool
  | .literal _ => true
  | .unary _ right => diceFree right
  | .binary left _ right => diceFree left && diceFree right
  | .grouping e => diceFree e
  | .roll _ _ _ => false

/-- Two randomness sources supply the same values in the same order: the
streams agree from their respective read positions on. -/
def EquivFrom (r1 r2 : RngState) : Prop :=
  ∀ k : Nat, r1.stream (r1.idx + k) = r2.stream (r2.idx + k)

/-- The values of the `Direct` entries of a provenance level, in order. -/
def directEntries : List Kind → List Int
  | [] => []
  | Kind.direct i :: rest => i :: directEntries rest
  | _ :: rest => directEntries rest

/-- C1, counterexample evidence (the claim is right, the code is wrong):
operator dispatch in `Expr::interpret` matches on the *lexeme*, so the
alias spellings accepted by the lexer (`x`, `×`, `÷`, `−`) drive evaluation
into the `unreachable!()` arms and panic, while the ASCII spellings of the
same token kinds evaluate normally. -/
theorem claim1_alias_spellings_panic :
    run 100 (lit ("1x2")) rng0 = some (.error (.runtimePanic .unreachableOp)) ∧
    run 100 (lit ("1*2")) rng0 = some (.ok (⟨2,
      [Kind.direct 1, Kind.token (lit ("x")), Kind.direct 2]⟩, rng0)) ∧
    run 100 (lit ("5−1")) rng0 = some (.error (.runtimePanic .unreachableOp)) ∧
    run 100 (lit ("5 - 1")) rng0 = some (.ok (⟨4,
      [Kind.direct 5, Kind.token (lit ("-")), Kind.direct 1]⟩, rng0)) ∧
    run 100 (lit ("6÷3")) rng0 = some (.error (.runtimePanic .unreachableOp)) ∧
    run 100 (lit ("6 / 3")) rng0 = some (.ok (⟨2,
      [Kind.direct 6, Kind.token (lit ("÷")), Kind.direct 3]⟩, rng0)) ∧
    run 100 (lit ("−1")) rng0 = some (.error (.runtimePanic .unreachableOp)) ∧
    run 100 (lit ("-1")) rng0 = some (.ok (⟨-1, [Kind.direct (-1)]⟩, rng0)) :=
  ⟨rfl, rfl, rfl, rfl, rfl, rfl, rfl, rfl⟩

/-- C2: the full pipeline on the six pure-arithmetic inputs yields exactly
the spec'd `current` values — precedence (`2 + 3 * 2` is 8, parentheses
change nothing that precedence already gives, `2 * (3 + 2)` is 10),
left-associativity (`5 - 1` is 4), and toward-zero integer division
(`1 / 2` is 0, `6 / 3` is 2) — for every randomness source, which is left
untouched. -/
theorem claim2_arithmetic_pipeline (r : RngState) :
    run 100 (lit ("2 + 3 * 2")) r = some (.ok (⟨8, provMix⟩, r)) ∧
    run 100 (lit ("2 + (3 * 2)")) r = some (.ok (⟨8, provMix⟩, r)) ∧
    run 100 (lit ("2 * (3 + 2)")) r = some (.ok (⟨10,
      [Kind.direct 2, Kind.token (lit ("x")), Kind.direct 3,
       Kind.token (lit ("+")), Kind.direct 2]⟩, r)) ∧
    run 100 (lit ("5 - 1")) r = some (.ok (⟨4,
      [Kind.direct 5, Kind.token (lit ("-")), Kind.direct 1]⟩, r)) ∧
    run 100 (lit ("1 / 2")) r = some (.ok (⟨0,
      [Kind.direct 1, Kind.token (lit ("÷")), Kind.direct 2]⟩, r)) ∧
    run 100 (lit ("6 / 3")) r = some (.ok (⟨2,
      [Kind.direct 6, Kind.token (lit ("÷")), Kind.direct 3]⟩, r)) :=
  ⟨rfl, rfl, rfl, rfl, rfl, rfl⟩

/-- C5: the malformed inputs `4000.53.10`, `a`, `400a` and the empty input
each make `parse` return a structured parse error (source text, span,
message, label) rather than a value; for `a` the very first token fetch
already classifies the input as an `error` token, and the reported span is
that first token's span. -/
theorem claim5_malformed_inputs :
    parse 100 (lit ("4000.53.10")) = some (.error ⟨lit ("4000.53.10"), (0, 7),
      lit ("Expected `number`, found `float`"), lit ("Expected `number`")⟩) ∧
    nextTokenFrom (lit ("a")) 0 = (.error, 0, 1) ∧
    parse 100 (lit ("a")) = some (.error ⟨lit ("a"), (0, 1),
      lit ("Expected `number`, found `error`"), lit ("Expected `number`")⟩) ∧
    parse 100 (lit ("400a")) = some (.error ⟨lit ("400a"), (3, 4),
      lit ("Unexpected characters `a` at the end of file."), lit ("Here")⟩) ∧
    parse 100 (lit ("")) = some (.error ⟨lit ("\n"), (0, 0),
      lit ("Expected `number`, found `EoF`"), lit ("Expected `number`")⟩) :=
  ⟨rfl, rfl, rfl, rfl, rfl⟩

/-- C6, counterexample: for the unmatched-parenthesis inputs `(1` and
`(1  ` the error does *not* report the current token: the current token at
the failure is `EoF` (spanning `(3,4)` for `(1  `), yet the reported
message says found `number` and the reported span is `(1,2)`, the span of
the *previous* token `1`. -/
theorem claim6_counterexample :
    parse 100 (lit ("(1  ")) = some (.error ⟨lit ("(1  "), (1, 2),
      lit ("Expected `)`, found `number`"), lit ("Expected `)`")⟩) ∧
    nextTokenFrom (lit ("(1  ")) 2 = (.eof, 3, 4) ∧
    ((1, 2) : Nat × Nat) ≠ (3, 4) ∧
    parse 100 (lit ("(1")) = some (.error ⟨lit ("(1"), (1, 2),
      lit ("Expected `)`, found `number`"), lit ("Expected `)`")⟩) ∧
    nextTokenFrom (lit ("(1")) 2 = (.eof, 1, 2) ∧
    TokenType.number ≠ TokenType.eof :=
  ⟨rfl, rfl, by decide, rfl, rfl, by decide⟩

/-- C4, counterexample: with the in-range fixed source `rng3` (every sample
3 ∈ [1,6]), `-1d6` evaluates to 0 — quantity −1 draws no dice — and 0 does
not lie in the claimed interval `[-6, -1]`. -/
theorem claim4_counterexample :
    run 100 (lit ("-1d6")) rng3
      = some (.ok (⟨0, [Kind.direct 0, Kind.roll []]⟩, rng3)) ∧
    ¬ ((0 : Int) ≤ -1) :=
  ⟨rfl, by decide⟩

/-- C4, amended: unary minus binds tighter than the dice operator, so
`-1d6` parses as `Roll{quantity: -(1), faces: 6}`; the negative quantity
makes the sample loop empty, and for every randomness source the result is
0 with an empty `Roll` provenance node — not the negation of one die. -/
theorem claim4_amended_neg_quantity :
    parse 100 (lit ("-1d6")) = some (.ok (Expr.roll
      (Expr.unary ⟨lit ("-1d6"), 0, 1, .minus⟩ (Expr.literal (Value.direct 1)))
      ⟨lit ("-1d6"), 2, 3, .dice⟩
      (Expr.literal (Value.direct 6)))) ∧
    ∀ r : RngState, run 100 (lit ("-1d6")) r
      = some (.ok (⟨0, [Kind.direct 0, Kind.roll []]⟩, r)) :=
  ⟨rfl, fun _ => rfl⟩

/-- C9, counterexample: the values produced for `2 + 3 * 2` and
`(2 + 3) * 2` carry the *same* provenance list (grouping inserts nothing
into the trace) while their `current` scalars are 8 and 10 — so `current`
is not recoverable from the provenance by any arithmetic evaluation. -/
theorem claim9_counterexample :
    run 100 (lit ("2 + 3 * 2")) rng0 = some (.ok (⟨8, provMix⟩, rng0)) ∧
    run 100 (lit ("(2 + 3) * 2")) rng0 = some (.ok (⟨10, provMix⟩, rng0)) ∧
    (8 : Int) ≠ 10 :=
  ⟨rfl, rfl, by decide⟩

/-- The sample loop succeeds whenever the range is nonempty, draws exactly
`n` stream elements in order, and advances the read position by `n`; every
drawn sample inherits any property the stream guarantees pointwise. -/
theorem rollSamples_spec (P : Int → Prop) (lo hi : Int) (hle : lo ≤ hi) :
    ∀ (n : Nat) (r : RngState), (∀ k, P (r.stream k)) →
      ∃ l r2, rollSamples n lo hi r = .ok (l, r2) ∧ l.length = n ∧
        (∀ x ∈ l, P x) ∧ r2.stream = r.stream ∧ r2.idx = r.idx + n := by
  intro n
  induction n with
  | zero =>
    intro r hP
    exact ⟨[], r, rfl, rfl, by simp, rfl, by simp⟩
  | succ m ih =>
    intro r hP
    obtain ⟨l, r2, heq, hlen, hall, hs, hidx⟩ := ih ⟨r.stream, r.idx + 1⟩ hP
    have hnl : ¬ hi < lo := not_lt.mpr hle
    refine ⟨r.stream r.idx :: l, r2, ?_, by simp [hlen], ?_, hs, by simp [hidx]; omega⟩
    · simp [rollSamples, genRange, hnl, heq]
    · intro x hx
      rcases List.mem_cons.mp hx with rfl | hx
      · exact hP r.idx
      · exact hall x hx

/-- Elementwise bounds on a list of integers bound its sum linearly in the
length. -/
theorem sum_between (lo hi : Int) :
    ∀ l : List Int, (∀ x ∈ l, lo ≤ x ∧ x ≤ hi) →
      (l.length : Int) * lo ≤ l.sum ∧ l.sum ≤ (l.length : Int) * hi := by
  intro l
  induction l with
  | nil => intro _; simp
  | cons a t ih =>
    intro h
    have ha := h a (by simp)
    have ht := ih (fun x hx => h x (by simp [hx]))
    simp only [List.sum_cons, List.length_cons]
    push_cast
    constructor <;> nlinarith [ht.1, ht.2, ha.1, ha.2]

/-- Interspersing operator tokens between `Direct` entries leaves exactly
the original values as the `Direct` entries of the result. -/
theorem directEntries_intersperse (sep : List Char) :
    ∀ l : List Int,
      directEntries (intersperseKind (Kind.token sep) (l.map Kind.direct)) = l
  | [] => rfl
  | [_] => rfl
  | a :: b :: l => by
    show a :: directEntries (intersperseKind (Kind.token sep) ((b :: l).map Kind.direct))
        = a :: b :: l
    rw [directEntries_intersperse sep (b :: l)]

/-- C3: for a roll `NdF` with literal quantity N ≥ 1 and faces F ≥ 1, under
any randomness source whose samples lie in [1, F], evaluation succeeds with
a total in [N, N·F], and the provenance is `Direct(total)` followed by a
`Roll` node whose `Direct` entries are exactly the N samples, each in
[1, F]. -/
theorem claim3_roll_bounds (N F : Int) (d : Token) (r : RngState)
    (hN : 1 ≤ N) (hF : 1 ≤ F)
    (hstream : ∀ k, 1 ≤ r.stream k ∧ r.stream k ≤ F) :
    ∃ v r2, interpret (Expr.roll (Expr.literal (Value.direct N)) d
        (Expr.literal (Value.direct F))) r = .ok (v, r2) ∧
      N ≤ v.current ∧ v.current ≤ N * F ∧
      ∃ entries, v.all = [Kind.direct v.current, Kind.roll entries] ∧
        ((directEntries entries).length : Int) = N ∧
        ∀ x ∈ directEntries entries, 1 ≤ x ∧ x ≤ F := by
  obtain ⟨l, r2, heq, hlen, hall, -, -⟩ :=
    rollSamples_spec (fun x => 1 ≤ x ∧ x ≤ F) 1 F hF N.toNat r hstream
  have hcastlen : ((l.length : Int)) = N := by
    rw [hlen]; exact Int.toNat_of_nonneg (by linarith)
  have hstep : interpret (Expr.roll (Expr.literal (Value.direct N)) d
      (Expr.literal (Value.direct F))) r
      = match rollSamples N.toNat 1 F r with
        | .error e => .error e
        | .ok (results, r3) =>
          .ok (Value.new results.sum [Kind.direct results.sum,
            Kind.roll (intersperseKind (Kind.token (lit ("+")))
              (results.map Kind.direct))], r3) := rfl
  rw [hstep, heq]
  have hsum := sum_between 1 F l hall
  refine ⟨_, r2, rfl, ?_, ?_, ?_⟩
  · have := hsum.1
    rw [hcastlen, mul_one] at this
    exact this
  · have := hsum.2
    rw [hcastlen] at this
    exact this
  · refine ⟨intersperseKind (Kind.token (lit ("+"))) (l.map Kind.direct), rfl, ?_, ?_⟩
    · rw [directEntries_intersperse, hcastlen]
    · rw [directEntries_intersperse]
      exact hall

/-- Witness for C3: `2d6` against the constant-3 source — both hypotheses
hold and the theorem's conclusion evaluates at them. -/
theorem claim3_roll_bounds_witness :
    ((1 ≤ (2 : Int)) ∧ (1 ≤ (6 : Int))
      ∧ ∀ k, 1 ≤ rng3.stream k ∧ rng3.stream k ≤ 6) ∧
    (∃ v r2, interpret (Expr.roll (Expr.literal (Value.direct 2))
        ⟨lit ("2d6"), 1, 2, .dice⟩ (Expr.literal (Value.direct 6))) rng3
        = .ok (v, r2) ∧
      2 ≤ v.current ∧ v.current ≤ 2 * 6 ∧
      ∃ entries, v.all = [Kind.direct v.current, Kind.roll entries] ∧
        ((directEntries entries).length : Int) = 2 ∧
        ∀ x ∈ directEntries entries, 1 ≤ x ∧ x ≤ 6) :=
  ⟨⟨by decide, by decide,
      fun _ => ⟨show (1 : Int) ≤ 3 by decide, show (3 : Int) ≤ 6 by decide⟩⟩,
    claim3_roll_bounds 2 6 ⟨lit ("2d6"), 1, 2, .dice⟩ rng3 (by decide) (by decide)
      (fun _ => ⟨show (1 : Int) ≤ 3 by decide, show (3 : Int) ≤ 6 by decide⟩)⟩

/-- C10: a roll whose quantity evaluates to n ≤ 0 draws nothing from the
randomness source (the state is returned unchanged) and yields the value 0
with an empty `Roll` provenance node instead of an error; concretely,
`0d6` evaluates to 0 under every source. -/
theorem claim10_nonpositive_quantity (n F : Int) (d : Token) (r : RngState)
    (hn : n ≤ 0) :
    interpret (Expr.roll (Expr.literal (Value.direct n)) d
        (Expr.literal (Value.direct F))) r
      = .ok (⟨0, [Kind.direct 0, Kind.roll []]⟩, r) ∧
    run 100 (lit ("0d6")) r = some (.ok (⟨0, [Kind.direct 0, Kind.roll []]⟩, r)) := by
  constructor
  · have hstep : interpret (Expr.roll (Expr.literal (Value.direct n)) d
        (Expr.literal (Value.direct F))) r
        = match rollSamples n.toNat 1 F r with
          | .error e => .error e
          | .ok (results, r3) =>
            .ok (Value.new results.sum [Kind.direct results.sum,
              Kind.roll (intersperseKind (Kind.token (lit ("+")))
                (results.map Kind.direct))], r3) := rfl
    rw [hstep, Int.toNat_of_nonpos hn]
    rfl
  · rfl

/-- Witness for C10: quantity 0 and faces 6 against the constant-1 source. -/
theorem claim10_nonpositive_quantity_witness :
    ((0 : Int) ≤ 0) ∧
    (interpret (Expr.roll (Expr.literal (Value.direct 0))
        ⟨lit ("0d6"), 1, 2, .dice⟩ (Expr.literal (Value.direct 6))) rng0
      = .ok (⟨0, [Kind.direct 0, Kind.roll []]⟩, rng0) ∧
    run 100 (lit ("0d6")) rng0
      = some (.ok (⟨0, [Kind.direct 0, Kind.roll []]⟩, rng0))) :=
  ⟨by decide,
    claim10_nonpositive_quantity 0 6 ⟨lit ("0d6"), 1, 2, .dice⟩ rng0 (by decide)⟩

/-- C6, amended: when `consume` fails (the current token does not have the
expected kind, e.g. a `(` not matched by `)`), the reported error carries
the *previous* token's kind as the found kind and the previous token's
span, in an `Expected ..., found ...` message. -/
theorem claim6_consume_reports_previous (s : ParserS) (expecting : TokenType)
    (h : s.current.ty ≠ expecting) :
    ∃ e : ParserError, consume expecting s = .error e ∧
      e.span = s.previous.span ∧
      e.message = lit ("Expected `") ++ expecting.display ++ lit ("`, found `")
        ++ s.previous.ty.display ++ lit ("`") ∧
      e.label = lit ("Expected `") ++ expecting.display ++ lit ("`") := by
  refine ⟨expectedError s expecting s.previous.ty, ?_, rfl, rfl, rfl⟩
  unfold consume
  rw [if_neg h]

/-- Witness for the amended C6: the parser state right after reading `(`
of the input `(1`, asked to consume a `)`. -/
theorem claim6_consume_reports_previous_witness :
    ((parserNew (lit ("(1"))).current.ty ≠ TokenType.rightParen) ∧
    (∃ e : ParserError,
      consume .rightParen (parserNew (lit ("(1"))) = .error e ∧
      e.span = (parserNew (lit ("(1"))).previous.span ∧
      e.message = lit ("Expected `") ++ TokenType.rightParen.display
        ++ lit ("`, found `")
        ++ (parserNew (lit ("(1"))).previous.ty.display ++ lit ("`") ∧
      e.label = lit ("Expected `") ++ TokenType.rightParen.display ++ lit ("`")) :=
  ⟨by decide, claim6_consume_reports_previous (parserNew (lit ("(1"))) .rightParen (by decide)⟩

/-- A dice-free tree neither reads nor advances the randomness source: its
outcome under any source `r` is the outcome under the canonical source
`rng0`, repackaged with `r` itself as the residual state. -/
theorem interpret_diceFree (e : Expr) (h : diceFree e = true) :
    ∀ r : RngState, interpret e r
      = Except.map (fun v => (v, r)) (Except.map Prod.fst (interpret e rng0)) := by
  induction e with
  | literal v => intro r; rfl
  | unary op right ih =>
    rw [diceFree] at h
    have ih' := ih h
    intro r
    cases hz : Except.map Prod.fst (interpret right rng0) with
    | error f =>
      have h1 := ih' r; rw [hz] at h1
      have h0 := ih' rng0; rw [hz] at h0
      simp only [interpret, h1, h0, Except.map]
    | ok w =>
      have h1 := ih' r; rw [hz] at h1
      have h0 := ih' rng0; rw [hz] at h0
      simp only [interpret, h1, h0, Except.map]
      by_cases hop : op.lexeme = lit ("-") <;> simp [hop, Except.map]
  | binary left op right ihl ihr =>
    rw [diceFree, Bool.and_eq_true] at h
    have ihl' := ihl h.1
    have ihr' := ihr h.2
    intro r
    cases hzl : Except.map Prod.fst (interpret left rng0) with
    | error f =>
      have l1 := ihl' r; rw [hzl] at l1
      have l0 := ihl' rng0; rw [hzl] at l0
      simp only [interpret, l1, l0, Except.map]
    | ok vl =>
      have l1 := ihl' r; rw [hzl] at l1
      have l0 := ihl' rng0; rw [hzl] at l0
      cases hzr : Except.map Prod.fst (interpret right rng0) with
      | error f =>
        have p1 := ihr' r; rw [hzr] at p1
        have p0 := ihr' rng0; rw [hzr] at p0
        simp only [interpret, l1, l0, p1, p0, Except.map]
      | ok vr =>
        have p1 := ihr' r; rw [hzr] at p1
        have p0 := ihr' rng0; rw [hzr] at p0
        simp only [interpret, l1, l0, p1, p0, Except.map]
        cases hd : binaryDispatch op.lexeme vl vr <;> simp [Except.map]
  | grouping e ih =>
    rw [diceFree] at h
    exact ih h
  | roll q d faces ihq ihf =>
    rw [diceFree] at h
    cases h

/-- Reading one sample preserves the supply-the-same-values relation. -/
theorem EquivFrom.bump {r1 r2 : RngState} (h : EquivFrom r1 r2) :
    EquivFrom ⟨r1.stream, r1.idx + 1⟩ ⟨r2.stream, r2.idx + 1⟩ := by
  intro k
  have hk := h (1 + k)
  simpa [Nat.add_assoc] using hk

/-- Closed form of the sample loop: an empty range with at least one draw
panics, otherwise the loop returns the next `n` stream elements in order
and advances the read position by `n`. -/
theorem rollSamples_char (lo hi : Int) :
    ∀ (n : Nat) (r : RngState),
      rollSamples n lo hi r =
        if hi < lo ∧ n ≠ 0 then .error .emptyRange
        else .ok ((List.range n).map (fun i => r.stream (r.idx + i)),
          ⟨r.stream, r.idx + n⟩) := by
  intro n
  induction n with
  | zero => intro r; simp [rollSamples]
  | succ m ih =>
    intro r
    by_cases hlt : hi < lo
    · simp [rollSamples, genRange, hlt]
    · have ihb := ih ⟨r.stream, r.idx + 1⟩
      rw [if_neg (by simp [hlt])] at ihb
      simp only [rollSamples, genRange, if_neg hlt, ihb,
        if_neg (by simp [hlt] : ¬ (hi < lo ∧ m + 1 ≠ 0))]
      refine congrArg Except.ok ?_
      refine Prod.ext ?_ ?_
      · show r.stream r.idx :: (List.range m).map (fun i => r.stream (r.idx + 1 + i))
            = (List.range (m + 1)).map (fun i => r.stream (r.idx + i))
        rw [List.range_succ_eq_map, List.map_cons, List.map_map]
        refine congrArg₂ List.cons ?_ ?_
        · show r.stream r.idx = r.stream (r.idx + 0)
          rw [Nat.add_zero]
        · refine List.map_congr_left ?_
          intro a _
          show r.stream (r.idx + 1 + a) = r.stream (r.idx + (a + 1))
          congr 1
          omega
      · show (⟨r.stream, r.idx + 1 + m⟩ : RngState) = ⟨r.stream, r.idx + (m + 1)⟩
        rw [show r.idx + 1 + m = r.idx + (m + 1) from by omega]

/-- Sources that supply the same values in the same order keep doing so
after the sample loop, and the loop returns the same samples under both. -/
theorem rollSamples_equiv (lo hi : Int) (n : Nat) (r1 r2 : RngState)
    (h : EquivFrom r1 r2) :
    (∀ e, rollSamples n lo hi r1 = .error e → rollSamples n lo hi r2 = .error e) ∧
    (∀ l s1, rollSamples n lo hi r1 = .ok (l, s1) →
      ∃ s2, rollSamples n lo hi r2 = .ok (l, s2) ∧ EquivFrom s1 s2) := by
  rw [rollSamples_char, rollSamples_char]
  by_cases hc : hi < lo ∧ n ≠ 0
  · rw [if_pos hc, if_pos hc]
    exact ⟨fun e he => he, fun l s1 hl => absurd hl (by simp)⟩
  · rw [if_neg hc, if_neg hc]
    refine ⟨fun e he => absurd he (by simp), fun l s1 hl => ?_⟩
    simp only [Except.ok.injEq, Prod.mk.injEq] at hl
    obtain ⟨hl1, hl2⟩ := hl
    refine ⟨⟨r2.stream, r2.idx + n⟩, ?_, ?_⟩
    · have hm : List.map (fun i => r2.stream (r2.idx + i)) (List.range n)
          = List.map (fun i => r1.stream (r1.idx + i)) (List.range n) :=
        List.map_congr_left (fun a _ => (h a).symm)
      rw [hm, hl1]
    · rw [← hl2]
      intro k
      have hk := h (n + k)
      simpa [Nat.add_assoc] using hk

/-- Evaluation under two sources that supply the same values in the same
order: panics coincide, and successful results carry the same `Value` with
the residual sources again supplying the same values in order. -/
theorem interpret_equiv (e : Expr) :
    ∀ r1 r2, EquivFrom r1 r2 →
      (∀ err, interpret e r1 = .error err → interpret e r2 = .error err) ∧
      (∀ v s1, interpret e r1 = .ok (v, s1) →
        ∃ s2, interpret e r2 = .ok (v, s2) ∧ EquivFrom s1 s2) := by
  induction e with
  | literal v =>
    intro r1 r2 h
    refine ⟨fun err he => absurd he (by simp [interpret]), fun v' s1 hl => ?_⟩
    simp only [interpret, Except.ok.injEq, Prod.mk.injEq] at hl
    obtain ⟨hv, hs⟩ := hl
    exact ⟨r2, by simp [interpret, hv], hs ▸ h⟩
  | unary op right ih =>
    intro r1 r2 h
    obtain ⟨ihe, ihok⟩ := ih r1 r2 h
    constructor
    · intro err he
      simp only [interpret] at he ⊢
      cases hr : interpret right r1 with
      | error f =>
        simp only [hr] at he
        simp only [ihe f hr]
        exact he
      | ok p =>
        obtain ⟨w, t1⟩ := p
        obtain ⟨t2, hok2, -⟩ := ihok w t1 hr
        simp only [hr] at he
        simp only [hok2]
        by_cases hop : op.lexeme = lit ("-")
        · rw [if_pos hop] at he
          exact absurd he (by simp)
        · rw [if_neg hop] at he ⊢
          exact he
    · intro v' s1 hl
      simp only [interpret] at hl ⊢
      cases hr : interpret right r1 with
      | error f =>
        simp only [hr] at hl
        exact absurd hl (by simp)
      | ok p =>
        obtain ⟨w, t1⟩ := p
        obtain ⟨t2, hok2, ht⟩ := ihok w t1 hr
        simp only [hr] at hl
        simp only [hok2]
        by_cases hop : op.lexeme = lit ("-")
        · rw [if_pos hop] at hl ⊢
          simp only [Except.ok.injEq, Prod.mk.injEq] at hl
          obtain ⟨hv, hs⟩ := hl
          exact ⟨t2, by rw [hv], hs ▸ ht⟩
        · rw [if_neg hop] at hl
          exact absurd hl (by simp)
  | binary left op right ihl ihr =>
    intro r1 r2 h
    obtain ⟨ihle, ihlok⟩ := ihl r1 r2 h
    constructor
    · intro err he
      simp only [interpret] at he ⊢
      cases hL : interpret left r1 with
      | error f =>
        simp only [hL] at he
        simp only [ihle f hL]
        exact he
      | ok p =>
        obtain ⟨vl, t1⟩ := p
        obtain ⟨t2, hL2, htL⟩ := ihlok vl t1 hL
        obtain ⟨ihre, ihrok⟩ := ihr t1 t2 htL
        simp only [hL] at he
        simp only [hL2]
        cases hR : interpret right t1 with
        | error g =>
          simp only [hR] at he
          simp only [ihre g hR]
          exact he
        | ok q =>
          obtain ⟨vr, u1⟩ := q
          obtain ⟨u2, hR2, -⟩ := ihrok vr u1 hR
          simp only [hR] at he
          simp only [hR2]
          cases hd : binaryDispatch op.lexeme vl vr with
          | error g2 =>
            simp only [hd] at he ⊢
            exact he
          | ok v0 =>
            simp only [hd] at he
            exact absurd he (by simp)
    · intro v' s1 hl
      simp only [interpret] at hl ⊢
      cases hL : interpret left r1 with
      | error f =>
        simp only [hL] at hl
        exact absurd hl (by simp)
      | ok p =>
        obtain ⟨vl, t1⟩ := p
        obtain ⟨t2, hL2, htL⟩ := ihlok vl t1 hL
        obtain ⟨ihre, ihrok⟩ := ihr t1 t2 htL
        simp only [hL] at hl
        simp only [hL2]
        cases hR : interpret right t1 with
        | error g =>
          simp only [hR] at hl
          exact absurd hl (by simp)
        | ok q =>
          obtain ⟨vr, u1⟩ := q
          obtain ⟨u2, hR2, htR⟩ := ihrok vr u1 hR
          simp only [hR] at hl
          simp only [hR2]
          cases hd : binaryDispatch op.lexeme vl vr with
          | error g2 =>
            simp only [hd] at hl
            exact absurd hl (by simp)
          | ok v0 =>
            simp only [hd] at hl
            simp only [Except.ok.injEq, Prod.mk.injEq] at hl
            obtain ⟨hv, hs⟩ := hl
            exact ⟨u2, by rw [hv], hs ▸ htR⟩
  | grouping e ih =>
    intro r1 r2 h
    exact ih r1 r2 h
  | roll q d faces ihq ihf =>
    intro r1 r2 h
    obtain ⟨ihqe, ihqok⟩ := ihq r1 r2 h
    constructor
    · intro err he
      simp only [interpret] at he ⊢
      cases hQ : interpret q r1 with
      | error f =>
        simp only [hQ] at he
        simp only [ihqe f hQ]
        exact he
      | ok p =>
        obtain ⟨vq, t1⟩ := p
        obtain ⟨t2, hQ2, htQ⟩ := ihqok vq t1 hQ
        obtain ⟨ihfe, ihfok⟩ := ihf t1 t2 htQ
        simp only [hQ] at he
        simp only [hQ2]
        cases hF : interpret faces t1 with
        | error g =>
          simp only [hF] at he
          simp only [ihfe g hF]
          exact he
        | ok qf =>
          obtain ⟨vf, u1⟩ := qf
          obtain ⟨u2, hF2, htF⟩ := ihfok vf u1 hF
          obtain ⟨rse, rsok⟩ := rollSamples_equiv 1 vf.current vq.current.toNat u1 u2 htF
          simp only [hF] at he
          simp only [hF2]
          cases hS : rollSamples vq.current.toNat 1 vf.current u1 with
          | error g2 =>
            simp only [hS] at he
            simp only [rse g2 hS]
            exact he
          | ok pr =>
            obtain ⟨l, w1⟩ := pr
            obtain ⟨w2, hS2, -⟩ := rsok l w1 hS
            simp only [hS] at he
            simp only [hS2]
            exact absurd he (by simp)
    · intro v' s1 hl
      simp only [interpret] at hl ⊢
      cases hQ : interpret q r1 with
      | error f =>
        simp only [hQ] at hl
        exact absurd hl (by simp)
      | ok p =>
        obtain ⟨vq, t1⟩ := p
        obtain ⟨t2, hQ2, htQ⟩ := ihqok vq t1 hQ
        obtain ⟨ihfe, ihfok⟩ := ihf t1 t2 htQ
        simp only [hQ] at hl
        simp only [hQ2]
        cases hF : interpret faces t1 with
        | error g =>
          simp only [hF] at hl
          exact absurd hl (by simp)
        | ok qf =>
          obtain ⟨vf, u1⟩ := qf
          obtain ⟨u2, hF2, htF⟩ := ihfok vf u1 hF
          obtain ⟨rse, rsok⟩ := rollSamples_equiv 1 vf.current vq.current.toNat u1 u2 htF
          simp only [hF] at hl
          simp only [hF2]
          cases hS : rollSamples vq.current.toNat 1 vf.current u1 with
          | error g2 =>
            simp only [hS] at hl
            exact absurd hl (by simp)
          | ok pr =>
            obtain ⟨l, w1⟩ := pr
            obtain ⟨w2, hS2, htS⟩ := rsok l w1 hS
            simp only [hS] at hl
            simp only [hS2]
            simp only [Except.ok.injEq, Prod.mk.injEq] at hl
            obtain ⟨hv, hs⟩ := hl
            exact ⟨w2, by rw [hv], hs ▸ htS⟩

/-- C7: evaluating a dice-free parsed tree is deterministic — the
value-or-panic outcome is the same under any two randomness sources — and
for arbitrary trees (rolls included), two evaluations under fixed-sequence
sources that supply the same values in the same order yield equal Values. -/
theorem claim7_deterministic_evaluation :
    (∀ e : Expr, diceFree e = true → ∀ r1 r2 : RngState,
      Except.map Prod.fst (interpret e r1) = Except.map Prod.fst (interpret e r2)) ∧
    (∀ (e : Expr) (r1 r2 : RngState), EquivFrom r1 r2 →
      ∀ v1 s1 v2 s2, interpret e r1 = .ok (v1, s1) → interpret e r2 = .ok (v2, s2) →
        v1 = v2) := by
  constructor
  · intro e h r1 r2
    rw [interpret_diceFree e h r1, interpret_diceFree e h r2]
    cases Except.map Prod.fst (interpret e rng0) <;> rfl
  · intro e r1 r2 h v1 s1 v2 s2 h1 h2
    obtain ⟨s2', h2', -⟩ := (interpret_equiv e r1 r2 h).2 v1 s1 h1
    rw [h2'] at h2
    simp only [Except.ok.injEq, Prod.mk.injEq] at h2
    exact h2.1

/-- Witness for C7: the dice-free literal `5` under two unrelated sources,
and the roll `2d6` under the constant-1 stream read from positions 0 and 5
(the same values in the same order). -/
theorem claim7_deterministic_evaluation_witness :
    (diceFree (Expr.literal (Value.direct 5)) = true ∧
      Except.map Prod.fst (interpret (Expr.literal (Value.direct 5)) rng0)
        = Except.map Prod.fst (interpret (Expr.literal (Value.direct 5)) rngk)) ∧
    (EquivFrom rng0 rngShift ∧
      (⟨2, [Kind.direct 2, Kind.roll [Kind.direct 1, Kind.token (lit ("+")),
        Kind.direct 1]]⟩ : Value)
      = ⟨2, [Kind.direct 2, Kind.roll [Kind.direct 1, Kind.token (lit ("+")),
        Kind.direct 1]]⟩) :=
  ⟨⟨rfl, claim7_deterministic_evaluation.1 (Expr.literal (Value.direct 5)) rfl rng0 rngk⟩,
   ⟨fun _ => rfl,
    claim7_deterministic_evaluation.2
      (Expr.roll (Expr.literal (Value.direct 2)) ⟨lit ("2d6"), 1, 2, .dice⟩
        (Expr.literal (Value.direct 6))) rng0 rngShift (fun _ => rfl)
      _ _ _ _ rfl rfl⟩⟩

/-- C8: `Binary` evaluates the left operand first (the right operand is
evaluated against the randomness state the left evaluation returned),
applies the operator to the two `current` scalars and concatenates the
provenances with the operator's display token between them; `Grouping`
returns the inner Value unchanged. -/
theorem claim8_binary_order_and_grouping :
    (∀ (left right : Expr) (op : Token) (r : RngState) vl r1 vr r2 v,
      interpret left r = .ok (vl, r1) → interpret right r1 = .ok (vr, r2) →
      binaryDispatch op.lexeme vl vr = .ok v →
      interpret (Expr.binary left op right) r = .ok (v, r2)) ∧
    (∀ (op : Token) (a b : Value),
      (op.lexeme = lit ("+") → binaryDispatch op.lexeme a b
        = .ok ⟨a.current + b.current, a.all ++ Kind.token (lit ("+")) :: b.all⟩) ∧
      (op.lexeme = lit ("-") → binaryDispatch op.lexeme a b
        = .ok ⟨a.current - b.current, a.all ++ Kind.token (lit ("-")) :: b.all⟩) ∧
      (op.lexeme = lit ("*") → binaryDispatch op.lexeme a b
        = .ok ⟨a.current * b.current, a.all ++ Kind.token (lit ("x")) :: b.all⟩) ∧
      (op.lexeme = lit ("/") → b.current ≠ 0 → binaryDispatch op.lexeme a b
        = .ok ⟨Int.tdiv a.current b.current,
            a.all ++ Kind.token (lit ("÷")) :: b.all⟩)) ∧
    (∀ (e : Expr) (r : RngState), interpret (Expr.grouping e) r = interpret e r) := by
  refine ⟨?_, ?_, fun e r => rfl⟩
  · intro left right op r vl r1 vr r2 v h1 h2 hd
    simp only [interpret, h1, h2, hd]
  · intro op a b
    refine ⟨fun hop => by rw [hop]; rfl, fun hop => by rw [hop]; rfl,
            fun hop => by rw [hop]; rfl, fun hop hnz => ?_⟩
    rw [hop]
    simp only [binaryDispatch, if_true]
    rw [if_neg hnz]
    rfl

/-- Witness for C8: `2 + 3` built from literals, evaluated under `rng0`,
and the `+` dispatch instance. -/
theorem claim8_binary_order_and_grouping_witness :
    (interpret (Expr.binary (Expr.literal (Value.direct 2))
        ⟨lit ("2+3"), 1, 2, .plus⟩ (Expr.literal (Value.direct 3))) rng0
      = .ok (⟨5, [Kind.direct 2, Kind.token (lit ("+")), Kind.direct 3]⟩, rng0)) ∧
    (binaryDispatch (Token.lexeme ⟨lit ("2+3"), 1, 2, .plus⟩)
        (Value.direct 2) (Value.direct 3)
      = .ok ⟨2 + 3, [Kind.direct 2] ++ Kind.token (lit ("+")) :: [Kind.direct 3]⟩) :=
  ⟨claim8_binary_order_and_grouping.1 (Expr.literal (Value.direct 2))
      (Expr.literal (Value.direct 3)) ⟨lit ("2+3"), 1, 2, .plus⟩ rng0
      (Value.direct 2) rng0 (Value.direct 3) rng0
      ⟨5, [Kind.direct 2, Kind.token (lit ("+")), Kind.direct 3]⟩ rfl rfl rfl,
   (claim8_binary_order_and_grouping.2.1 ⟨lit ("2+3"), 1, 2, .plus⟩
      (Value.direct 2) (Value.direct 3)).1 rfl⟩

/-- C9, amended: each evaluation step does construct `current` and the
provenance together — literals record `Direct(v)`, unary negation
collapses to `Direct(-v)`, `+ - * /` combine the two scalars and
concatenate the provenances around the operator's display token, and a
roll records `Direct(total)` of exactly the drawn samples — but the scalar
is not recoverable from the provenance alone: grouping inserts nothing
into the trace, so the values of `2 + 3 * 2` and `(2 + 3) * 2` share one
provenance while their currents are 8 and 10. -/
theorem claim9_amended_constructed_together :
    (∀ a b : Value, Value.add a b
      = ⟨a.current + b.current, a.all ++ Kind.token (lit ("+")) :: b.all⟩) ∧
    (∀ a b : Value, Value.sub a b
      = ⟨a.current - b.current, a.all ++ Kind.token (lit ("-")) :: b.all⟩) ∧
    (∀ a b : Value, Value.mul a b
      = ⟨a.current * b.current, a.all ++ Kind.token (lit ("x")) :: b.all⟩) ∧
    (∀ a b : Value, Value.div a b
      = ⟨Int.tdiv a.current b.current, a.all ++ Kind.token (lit ("÷")) :: b.all⟩) ∧
    (∀ a : Value, Value.neg a = Value.direct (-a.current)) ∧
    (∀ i : Int, Value.direct i = ⟨i, [Kind.direct i]⟩) ∧
    (∀ (q : Expr) (d : Token) (faces : Expr) (r : RngState) vq r1 vf r2 l r3,
      interpret q r = .ok (vq, r1) → interpret faces r1 = .ok (vf, r2) →
      rollSamples vq.current.toNat 1 vf.current r2 = .ok (l, r3) →
      interpret (Expr.roll q d faces) r = .ok (⟨l.sum,
        [Kind.direct l.sum, Kind.roll (intersperseKind (Kind.token (lit ("+")))
          (l.map Kind.direct))]⟩, r3)) ∧
    (run 100 (lit ("2 + 3 * 2")) rng0 = some (.ok (⟨8, provMix⟩, rng0)) ∧
     run 100 (lit ("(2 + 3) * 2")) rng0 = some (.ok (⟨10, provMix⟩, rng0))) := by
  refine ⟨fun a b => rfl, fun a b => rfl, fun a b => rfl, fun a b => rfl,
    fun a => rfl, fun i => rfl, ?_, rfl, rfl⟩
  intro q d faces r vq r1 vf r2 l r3 h1 h2 h3
  simp only [interpret, h1, h2, h3]
  rfl

/-- Witness for the amended C9: the roll step for `2d6` under the
constant-1 source, whose total 2 equals the sum of the recorded samples. -/
theorem claim9_amended_constructed_together_witness :
    interpret (Expr.roll (Expr.literal (Value.direct 2)) ⟨lit ("2d6"), 1, 2, .dice⟩
        (Expr.literal (Value.direct 6))) rng0
      = .ok (⟨List.sum [1, 1], [Kind.direct (List.sum [1, 1]),
          Kind.roll (intersperseKind (Kind.token (lit ("+")))
            (List.map Kind.direct [1, 1]))]⟩, ⟨rng0.stream, 2⟩) :=
  claim9_amended_constructed_together.2.2.2.2.2.2.1
    (Expr.literal (Value.direct 2)) ⟨lit ("2d6"), 1, 2, .dice⟩
    (Expr.literal (Value.direct 6)) rng0
    (Value.direct 2) rng0 (Value.direct 6) rng0 [1, 1] ⟨rng0.stream, 2⟩ rfl rfl rfl

end Dicey
